import Mathlib

/-!
Verification development for the bombsite turn-based artillery game
(`src/bombsite`).  Each definition below is a shallow embedding of a Python
function or data structure of the repository; the doc comment of every
definition names the source it is translated from.  Machine floating-point
values are embedded as exact rationals (every IEEE double is a rational) and
computations that mathematically involve square roots (`np.linalg.norm`) are
embedded over the reals with `Real.sqrt`.
-/

namespace Bombsite

/-! ## Terrain: solidity mask (`PlayingField.process_mask`, `collision_pixel`) -/

/-- Solidity mask of the playing field, `PlayingField.mask`: a per-pixel
grid of booleans indexed by integer pixel coordinates
(`src/bombsite/world/playing_field.py`).  The Python array is a finite
`W × H` grid; indices outside it are only ever read through the
bounds-checked `collision_pixel`, so a total function loses nothing. -/
def Mask : Type := Int → Int → Bool

/-- Translation of `PlayingField.process_mask` (playing_field.py lines
252-278) restricted to one pixel: the new mask is the elementwise AND of the
old mask with the overlay predicate evaluated at the pixel indices
(`self.mask = self.mask & overlay(x, y, self.mask)`). -/
def process_mask (mask : Mask) (overlay : Int → Int → Bool) : Mask :=
  fun x y => mask x y && overlay x y

/-- Translation of the overlay lambda used by `PlayingField.explosion`
(playing_field.py line 392): keep a pixel exactly when its squared distance
from the blast centre exceeds the squared radius,
`(x - pos[0]) ** 2 + (y - pos[1]) ** 2 > radius ** 2`.  The centre is a pair
of floats, embedded as rationals; the radius an integer. -/
def explosion_overlay (px py : ℚ) (radius : Int) (x y : Int) : Bool :=
  decide ((x - px) ^ 2 + (y - py) ^ 2 > (radius : ℚ) ^ 2)

/-- Terrain carving step of `PlayingField.explosion` (playing_field.py line
392): `process_mask` applied with the circular-disc overlay. -/
def carve (px py : ℚ) (radius : Int) (mask : Mask) : Mask :=
  process_mask mask (explosion_overlay px py radius)

/-- A sequence of carve operations applied in order (each explosion during a
match performs one `carve`). -/
def carve_seq : List (ℚ × ℚ × Int) → Mask → Mask
  | [], mask => mask
  | op :: rest, mask => carve_seq rest (carve op.1 op.2.1 op.2.2 mask)

/-- Translation of `PlayingField.collision_pixel` (playing_field.py lines
362-376): `0 <= x < W and 0 <= y < H and bool(self.mask[int(x), int(y)])`.
The coordinates are floats, embedded as rationals; Python's `int()`
truncation agrees with `Int.floor` on the nonnegative values admitted by the
bounds check, and the chained `and` never indexes the mask out of bounds. -/
def collision_pixel (mask : Mask) (W H : Nat) (x y : ℚ) : Bool :=
  decide (0 ≤ x) && decide (x < W) && decide (0 ≤ y) && decide (y < H) &&
    mask ⌊x⌋ ⌊y⌋

/-! ## Game state machine (`GameState`, `PlayingField.process_tick`,
`Character.release_attack`) -/

/-- Translation of the `GameState` dataclass (gamestate.py lines 28-33): the
five phase booleans.  `last_general_tick` is kept outside the model; the
tick-threshold comparisons it feeds are abstracted as boolean inputs of the
step function. -/
structure GameState where
  controlled_can_attack : Bool
  controlled_can_just_walk : Bool
  waiting_for_things_to_settle : Bool
  between_turns : Bool
  end_game : Bool
deriving DecidableEq, Repr

/-- Field defaults of the `GameState` dataclass (gamestate.py):
`controlled_can_attack = True`, `controlled_can_just_walk = False`,
`waiting_for_things_to_settle = True`, `between_turns = False`,
`end_game = False`.  `PlayingField.__init__` stores `GameState()` unchanged
and `GamePlay.test_bombsite` never touches it, so this is the state of a
freshly constructed game. -/
def GameState.init : GameState :=
  ⟨true, false, true, false, false⟩

/-- Translation of `PlayingField.process_tick` (playing_field.py lines
165-215) as a function of the game state.  The environment of the tick is
passed in as booleans: `time_up` stands for the `time > ...` comparison of
whichever branch runs, `is_settled` for `self.settled`, and `multi_alive`
for `self.number_of_alive_teams() > 1`.  The chain of `if`/`elif` on the
phase flags and the flag assignments follow the source line by line. -/
def process_tick (time_up is_settled multi_alive : Bool) (gs : GameState) :
    GameState :=
  if gs.controlled_can_attack then
    if time_up then
      { gs with controlled_can_attack := false, between_turns := true }
    else gs
  else if gs.controlled_can_just_walk then
    if time_up then
      { gs with controlled_can_just_walk := false,
                waiting_for_things_to_settle := true }
    else gs
  else if gs.waiting_for_things_to_settle then
    if is_settled then
      { gs with waiting_for_things_to_settle := false, between_turns := true }
    else gs
  else if gs.between_turns then
    if time_up then
      if multi_alive then
        { gs with between_turns := false, controlled_can_attack := true }
      else
        { gs with between_turns := false, end_game := true }
    else gs
  else gs

/-- Translation of the phase change performed by `Character.release_attack`
(characters.py lines 470-471): when an attack is released (which requires
`preparing_attack` and `controlled_can_attack`), `controlled_can_attack`
is cleared and `controlled_can_just_walk` is set. -/
def release_attack_phase (gs : GameState) : GameState :=
  if gs.controlled_can_attack then
    { gs with controlled_can_attack := false, controlled_can_just_walk := true }
  else gs

/-- One step of the game-state machine: either a `process_tick` with some
environment, or an attack release.  These are the only places in the
repository that write the five phase flags. -/
inductive GsStep : GameState → GameState → Prop
  | tick (time_up is_settled multi_alive : Bool) (gs : GameState) :
      GsStep gs (process_tick time_up is_settled multi_alive gs)
  | release (gs : GameState) : GsStep gs (release_attack_phase gs)

/-- Reachability of a game state from the freshly constructed initial state
through any number of ticks and attack releases. -/
def GsReachable (gs : GameState) : Prop :=
  Relation.ReflTransGen GsStep GameState.init gs

/-- Count of the phase flags of a game state that are set. -/
def GameState.flag_count (gs : GameState) : Nat :=
  gs.controlled_can_attack.toNat + gs.controlled_can_just_walk.toNat +
    gs.waiting_for_things_to_settle.toNat + gs.between_turns.toNat +
    gs.end_game.toNat

/-- The eight game states reachable in a match: the initial double-flagged
state, the transient double-flagged states right after an opening-turn
release or timeout, and the five single-flag phases. -/
def gs_set : List GameState :=
  [⟨true, false, true, false, false⟩,
   ⟨false, false, true, true, false⟩,
   ⟨false, true, true, false, false⟩,
   ⟨false, false, false, true, false⟩,
   ⟨false, false, true, false, false⟩,
   ⟨true, false, false, false, false⟩,
   ⟨false, false, false, false, true⟩,
   ⟨false, true, false, false, false⟩]

/-! ## World objects and `PlayingField.settled` -/

/-- Kind of a world object in `PlayingField.world_objects`: a character, a
rocket, or a grenade.  A grenade in the list is a live grenade — `Grenade`
instances are removed from `world_objects` on detonation or on leaving the
map (`Projectile.destroy`). -/
inductive WOKind
  | character
  | rocket
  | grenade
deriving DecidableEq, Repr

/-- A world object as `PlayingField.settled` sees it: its kind and the two
components of `kinematics.vel` (floats, embedded as rationals). -/
structure WorldObject where
  kind : WOKind
  vx : ℚ
  vy : ℚ
deriving DecidableEq, Repr

/-- Translation of the `PlayingField.settled` property (playing_field.py
lines 226-238): `for wo in self.world_objects: if np.any(wo.kinematics.vel):
return False` then `return True` — true exactly when every world object has
zero velocity in both axes.  It inspects nothing but velocities. -/
def settled (objs : List WorldObject) : Bool :=
  objs.all fun wo => decide (wo.vx = 0) && decide (wo.vy = 0)

/-- Translation of `Grenade.is_in_steady_state` (grenade.py lines 132-139):
it returns `False` unconditionally.  No caller of this method exists
anywhere in the repository; in particular `settled` does not consult it. -/
def grenade_is_in_steady_state : Bool :=
  false

/-- Whether a live grenade is among the world objects. -/
def has_live_grenade (objs : List WorldObject) : Bool :=
  objs.any fun wo => decide (wo.kind = WOKind.grenade)

/-- The turn-machine step as driven by the world: `process_tick` with its
`self.settled` test evaluated on the world objects (playing_field.py lines
192-196). -/
def process_tick_world (time_up multi_alive : Bool) (objs : List WorldObject)
    (gs : GameState) : GameState :=
  process_tick time_up (settled objs) multi_alive gs

/-! ## Characters: explosion damage and knockback
(`PlayingField.explosion`, `misc/explosion.py`) -/

/-- State of a character as the explosion resolver and the bounce routine
read and write it: position (`kinematics.pos`), velocity
(`kinematics.vel`), health (`health.hp`) and the alive flag
(`health.alive`).  `Health.hp` is declared `int` in health.py, but
`PlayingField.explosion` subtracts the float `radius - distance` from it
with no conversion, so hp is carried as a real number here. -/
structure CharacterState where
  px : ℝ
  py : ℝ
  vx : ℝ
  vy : ℝ
  hp : ℝ
  alive : Bool

/-- Divisor of the knockback normalisation in `PlayingField.explosion`
(playing_field.py line 409): `np.linalg.norm(blast_vector)` where
`blast_vector = (character.pos - pos) + (0, -25)`. -/
noncomputable def blast_divisor (cx cy : ℝ) (ch : CharacterState) : ℝ :=
  Real.sqrt ((ch.px - cx) ^ 2 + (ch.py - cy - 25) ^ 2)

/-- Translation of the per-character body of `PlayingField.explosion`
(playing_field.py lines 394-431), the path run by live rocket and grenade
detonations.  Dead characters are skipped; `distance` is the Euclidean norm
of `character.pos - pos`; within the blast radius the hp loses the exact
(fractional) value `radius - distance`; a character whose new hp is ≤ 0 dies
with velocity set to `(0, 0)`; a survivor gains
`(blast_direction * (radius - distance)) * 0.1` of velocity. -/
noncomputable def explosion_character (cx cy radius : ℝ) (ch : CharacterState) :
    CharacterState :=
  if ch.alive then
    let wx := ch.px - cx
    let wy := ch.py - cy
    let distance := Real.sqrt (wx ^ 2 + wy ^ 2)
    if distance < radius then
      let bn := blast_divisor cx cy ch
      let hp' := ch.hp - (radius - distance)
      if hp' ≤ 0 then
        { ch with hp := hp', alive := false, vx := 0, vy := 0 }
      else
        { ch with hp := hp',
                  vx := ch.vx + wx / bn * (radius - distance) * 0.1,
                  vy := ch.vy + (wy - 25) / bn * (radius - distance) * 0.1 }
    else ch
  else ch

/-- Translation of `character_caught_by_explosion`
(world/misc/explosion.py lines 49-85): the helper that receives the blast
direction and the distance precomputed by its caller.  Its damage is
`radius - int(distance)` — the distance, not the difference, is truncated
(`int` agrees with `Int.floor` since a norm is nonnegative) — while the
fling uses the untruncated `radius - distance`. -/
noncomputable def character_caught_by_explosion (bdx bdy distance : ℝ)
    (radius : Int) (ch : CharacterState) : CharacterState :=
  let hp' := ch.hp - ((radius : ℝ) - (⌊distance⌋ : ℝ))
  if hp' ≤ 0 then
    { ch with hp := hp', alive := false, vx := 0, vy := 0 }
  else
    { ch with hp := hp',
              vx := ch.vx + bdx * ((radius : ℝ) - distance) * 0.1,
              vy := ch.vy + bdy * ((radius : ℝ) - distance) * 0.1 }

/-- Translation of `check_character_caught_by_explosion`
(world/misc/explosion.py lines 20-46): computes the distance and blast
direction and calls `character_caught_by_explosion` when the character is
inside the blast radius. -/
noncomputable def check_character_caught_by_explosion (cx cy : ℝ)
    (radius : Int) (ch : CharacterState) : CharacterState :=
  let wx := ch.px - cx
  let wy := ch.py - cy
  let distance := Real.sqrt (wx ^ 2 + wy ^ 2)
  if distance < (radius : ℝ) then
    let bn := blast_divisor cx cy ch
    character_caught_by_explosion (wx / bn) ((wy - 25) / bn) distance radius ch
  else ch

/-! ## Characters: terrain bounce (`Character._bounce`) -/

/-- Outcomes of the three `_surrounding_is` template tests that
`Character._bounce` performs (characters.py lines 612-622): flat ground,
ground sloped downwards to the right, ground sloped downwards to the left.
The tests sample the solidity mask around the character's pixel
(characters.py lines 554-585); the bounce depends on them only through
these three booleans. -/
structure Surrounding where
  flat : Bool
  slope_right : Bool
  slope_left : Bool

/-- Damage-and-death step of `Character._bounce` (characters.py lines
598-609): hp loses `int(4 * entry_speed)` where the entry speed is
`np.linalg.norm(self.kinematics.vel)` (truncation agrees with `Int.floor`
for a nonnegative speed); a character whose hp drops to ≤ 0 dies and its
velocity is nulled. -/
noncomputable def bounce_damage (ch : CharacterState) : CharacterState :=
  if ch.hp - (⌊4 * Real.sqrt (ch.vx ^ 2 + ch.vy ^ 2)⌋ : ℝ) ≤ 0 then
    { ch with hp := ch.hp - (⌊4 * Real.sqrt (ch.vx ^ 2 + ch.vy ^ 2)⌋ : ℝ),
              alive := false, vx := 0, vy := 0 }
  else
    { ch with hp := ch.hp - (⌊4 * Real.sqrt (ch.vx ^ 2 + ch.vy ^ 2)⌋ : ℝ) }

/-- Pattern-matched bounce of `Character._bounce` (characters.py lines
611-629).  On the slope branches `set_vy` reads the x-velocity that
`set_vx` has just overwritten, exactly as the sequential numpy mutations
do, so the new vy is `(vy * ±0.6) * ±0.6`.  Unclassifiable terrain zeroes
the velocity. -/
noncomputable def bounce_pattern (sur : Surrounding) (ch : CharacterState) :
    CharacterState :=
  if sur.flat then
    { ch with vx := ch.vx * 0.8, vy := ch.vy * (-0.4) }
  else if sur.slope_right then
    { ch with vx := ch.vy * 0.6, vy := ch.vy * 0.6 * 0.6 }
  else if sur.slope_left then
    { ch with vx := ch.vy * (-0.6), vy := ch.vy * (-0.6) * (-0.6) }
  else
    { ch with vx := 0, vy := 0 }

/-- Translation of `Character._bounce` (characters.py lines 587-630): below
entry speed 5 the velocity is zeroed with no damage; otherwise the damage
step runs and then — as in the source, which has no early return after a
fatal impact — the pattern-matched bounce runs on its result. -/
noncomputable def bounce (sur : Surrounding) (ch : CharacterState) :
    CharacterState :=
  if Real.sqrt (ch.vx ^ 2 + ch.vy ^ 2) < 5 then { ch with vx := 0, vy := 0 }
  else bounce_pattern sur (bounce_damage ch)

/-! ## Attack charging (`Character.prepare_attack`, `release_attack`) -/

/-- Setting `MAXIMUM_FIRING_POWER` of settings.py. -/
def MAXIMUM_FIRING_POWER : ℚ := 10

/-- The pieces of state that `prepare_attack` and `release_attack` read and
write: `control.firing_strength`, `control.preparing_attack` and the
game-state flag `controlled_can_attack`.  Firing strengths are floats,
embedded as exact rationals. -/
structure AttackControl where
  firing_strength : ℚ
  preparing_attack : Bool
  controlled_can_attack : Bool
deriving DecidableEq, Repr

/-- Translation of `Character.release_attack` (characters.py lines
453-472) restricted to this state: when preparing and allowed to attack, it
uses the current firing strength for the projectile velocity (returned as
the second component), resets the strength to 0, clears `preparing_attack`
and moves the phase from `controlled_can_attack` to
`controlled_can_just_walk`.  Otherwise nothing happens. -/
def release_attack (ac : AttackControl) : AttackControl × Option ℚ :=
  if ac.preparing_attack && ac.controlled_can_attack then
    (⟨0, false, false⟩, some ac.firing_strength)
  else (ac, none)

/-- Translation of `Character.prepare_attack` (characters.py lines
430-451): when preparing and allowed to attack, the firing strength grows
by 0.12; if an AI target strength is supplied and exceeded, the strength is
set back to the target; otherwise (`elif`) crossing `MAXIMUM_FIRING_POWER`
clamps the strength to exactly 10 and calls `release_attack`.  The second
component is the strength a triggered release fired with, if any. -/
def prepare_attack (target : Option ℚ) (ac : AttackControl) :
    AttackControl × Option ℚ :=
  if ac.preparing_attack && ac.controlled_can_attack then
    let s := ac.firing_strength + 0.12
    match target with
    | some t =>
        if s > t then (⟨t, ac.preparing_attack, ac.controlled_can_attack⟩, none)
        else if s > MAXIMUM_FIRING_POWER then
          release_attack ⟨MAXIMUM_FIRING_POWER, ac.preparing_attack,
            ac.controlled_can_attack⟩
        else (⟨s, ac.preparing_attack, ac.controlled_can_attack⟩, none)
    | none =>
        if s > MAXIMUM_FIRING_POWER then
          release_attack ⟨MAXIMUM_FIRING_POWER, ac.preparing_attack,
            ac.controlled_can_attack⟩
        else (⟨s, ac.preparing_attack, ac.controlled_can_attack⟩, none)
  else (ac, none)

/-- Charging state after `start_attack` in the attack-allowed phase:
strength 0, preparing, allowed to attack (characters.py lines 424-428). -/
def initial_charge : AttackControl := ⟨0, true, true⟩

/-- State after `n` calls of `prepare_attack` from `initial_charge`. -/
def charge_steps (target : Option ℚ) : Nat → AttackControl
  | 0 => initial_charge
  | n + 1 => (prepare_attack target (charge_steps target n)).1

/-- The strength fired by the `n + 1`-st `prepare_attack` call (the call
taking the state after `n` calls), if that call triggered a release. -/
def fired_on_call (target : Option ℚ) (n : Nat) : Option ℚ :=
  (prepare_attack target (charge_steps target n)).2

/-! ## AI attack scan (`Computer.scan_attacks`, teams/computer.py) -/

/-- Translation of `np.linspace(a, b, num)` with its default
`endpoint=True`: `num` samples `a + (b - a) * i / (num - 1)` for
`i = 0, …, num - 1`. -/
def linspace (a b : ℚ) (num : Nat) : List ℚ :=
  (List.range num).map fun i => a + (b - a) * i / (num - 1)

/-- One candidate of the AI grid search: a facing, a firing angle and a
firing strength (the `AttackOverride` the phantom is scored with). -/
structure AttackCandidate where
  facing_l : Bool
  angle : ℚ
  strength : ℚ
deriving DecidableEq, Repr

/-- Translation of the candidate enumeration of `Computer.scan_attacks`
(teams/computer.py lines 131-135): `itertools.product` of
`(True, False)`, `np.linspace(MINIMUM_FIRING_ANGLE, MAXIMUM_FIRING_ANGLE,
10)` and `np.linspace(0, MAXIMUM_FIRING_POWER)` — the power grid is the
numpy default of 50 samples, no count being passed. -/
def scan_candidates : List AttackCandidate :=
  [true, false].flatMap fun f =>
    (linspace (-50) 88 10).flatMap fun ang =>
      (linspace 0 10 50).map fun s => ⟨f, ang, s⟩

/-- Accumulator of `Computer.scan_attacks`: the best damage, distance,
facing, angle and strength seen so far (teams/computer.py lines 125-129,
136-141). -/
structure ScanBest where
  best_damage : Int
  best_distance : ℚ
  should_face_l : Bool
  best_angle : ℚ
  best_strength : ℚ
deriving DecidableEq, Repr

/-- The initial accumulator of `Computer.scan_attacks`: damage 0, distance
100000.0, the controlled character's current facing, angle
`(MAXIMUM_FIRING_ANGLE + MINIMUM_FIRING_ANGLE) / 2 = 19` and strength
`MAXIMUM_FIRING_POWER // 2 = 5`. -/
def scan_init (facing0 : Bool) : ScanBest :=
  ⟨0, 100000, facing0, (88 + (-50)) / 2, 5⟩

/-- Loop body of `Computer.scan_attacks` (teams/computer.py lines 136-141):
the candidate replaces the incumbent exactly when its phantom damage is
strictly greater, or equal with a strictly smaller phantom distance.
`score` stands for `attack.release_phantom(controlled, attack_override)`,
the projectile simulation that assigns each candidate its expected damage
(an int) and expected distance (a float). -/
def scan_step (score : AttackCandidate → Int × ℚ) (acc : ScanBest)
    (c : AttackCandidate) : ScanBest :=
  if (score c).1 > acc.best_damage ∨
      ((score c).1 = acc.best_damage ∧ (score c).2 < acc.best_distance) then
    ⟨(score c).1, (score c).2, c.facing_l, c.angle, c.strength⟩
  else acc

/-- Translation of `Computer.scan_attacks` (teams/computer.py lines
108-144) for one attack type: fold the replacement rule over the candidate
grid starting from the defaults. -/
def scan_attacks (score : AttackCandidate → Int × ℚ) (facing0 : Bool) :
    ScanBest :=
  scan_candidates.foldl (scan_step score) (scan_init facing0)

/-- The strict preference of the scan's replacement rule: a scored
candidate `(d₁, δ₁)` beats `(d₂, δ₂)` when its damage is strictly greater,
or its damage is equal and its distance strictly smaller (teams/computer.py
line 138). -/
def scan_beats (d₁ : Int) (δ₁ : ℚ) (d₂ : Int) (δ₂ : ℚ) : Prop :=
  d₁ > d₂ ∨ (d₁ = d₂ ∧ δ₁ < δ₂)

/-! ## Team roster queue and team rotation
(`Team.next_character`, `PlayingField.next_team`) -/

/-- Translation of the `Team.next_character` generator (teams/teams.py
lines 247-256): `while True: for character in self.characters.copy(): if
character.health.alive: yield character`.  The roster is the list of the
characters' alive flags in insertion order.  A call of `next()` resumes the
scan at index `i`; it walks forward, yields the first alive index, and
wraps to 0 at the end of the list.  `fuel` bounds the number of scan steps
taken, so the generator of an all-dead roster — an infinite loop — returns
`none` for every fuel. -/
def next_character (roster : List Bool) : Nat → Nat → Option Nat
  | _, 0 => none
  | i, fuel + 1 =>
      if i < roster.length then
        if roster.getD i false then some i
        else next_character roster (i + 1) fuel
      else next_character roster 0 fuel

/-- Declarative description of one advance of the character queue: the
first alive index of the roster in cyclic insertion order starting from
`start`. -/
def first_alive_from (roster : List Bool) (start : Nat) : Option Nat :=
  ((List.range roster.length).rotate start).find? fun j => roster.getD j false

/-- Translation of the live-team list of `PlayingField.next_team`
(playing_field.py line 112): the teams that are alive, plus the team that
played last.  Teams are identified by their index in `self.teams`
(insertion order) and carried as their `check_if_alive()` flag. -/
def live_teams (teams : List Bool) (last : Nat) : List Nat :=
  (List.range teams.length).filter fun i => teams.getD i false || i == last

/-- Translation of the `for team, team_after in zip(live_teams,
live_teams[1:] + [live_teams[0]])` loop of `PlayingField.next_team`
(playing_field.py lines 117-121): the companion of the first pair whose
first component is the last team; `none` embeds the `ValueError` raised
when the loop finds nothing. -/
def find_team_after (last : Nat) : List (Nat × Nat) → Option Nat
  | [] => none
  | (t, t') :: rest => if t = last then some t' else find_team_after last rest

/-- Translation of `PlayingField.next_team` (playing_field.py lines
100-121) for the calls made by `process_tick`, which always pass the team
of the last controlled character: with a single live team it is returned
directly, otherwise the team after the last one in the rotated live list.
`live_teams[1:] + [live_teams[0]]` is `List.rotate live 1`. -/
def next_team (teams : List Bool) (last : Nat) : Option Nat :=
  let live := live_teams teams last
  if live.length = 1 then live.head?
  else find_team_after last (live.zip (live.rotate 1))

/-! ## Helper lemmas -/

lemma carve_seq_mono (x y : Int) :
    ∀ (ops : List (ℚ × ℚ × Int)) (mask : Mask),
      carve_seq ops mask x y = true → mask x y = true := by
  intro ops
  induction ops with
  | nil => intro mask h; exact h
  | cons op rest ih =>
      intro mask h
      have h2 := ih (carve op.1 op.2.1 op.2.2 mask) h
      simp only [carve, process_mask, Bool.and_eq_true] at h2
      exact h2.1

lemma gs_step_closed {a b : GameState} (h : GsStep a b) (ha : a ∈ gs_set) :
    b ∈ gs_set := by
  cases h with
  | tick time_up is_settled multi_alive gs =>
      fin_cases ha <;>
        cases time_up <;> cases is_settled <;> cases multi_alive <;> decide
  | release gs => fin_cases ha <;> decide

lemma gs_reachable_mem {gs : GameState} (h : GsReachable gs) : gs ∈ gs_set := by
  induction h with
  | refl => decide
  | tail _ hstep ih => exact gs_step_closed hstep ih

/-! ## C7: terrain carving is monotonic and idempotent -/

/-- C7: a pixel that is non-solid before any sequence of carves is still
non-solid after it (carving never adds solidity); one carve keeps a pixel
solid exactly when it was solid and its squared distance to the centre
exceeds the squared radius (so exactly the disc of pixels within the radius
is removed); and applying the same carve twice yields the same solidity
mask as applying it once. -/
theorem carve_monotone_idempotent (ops : List (ℚ × ℚ × Int)) (mask : Mask)
    (px py : ℚ) (r : Int) (x y : Int) :
    (carve_seq ops mask x y = true → mask x y = true) ∧
    (carve px py r mask x y = true ↔
      mask x y = true ∧ ((x : ℚ) - px) ^ 2 + ((y : ℚ) - py) ^ 2 > (r : ℚ) ^ 2) ∧
    carve px py r (carve px py r mask) x y = carve px py r mask x y := by
  refine ⟨carve_seq_mono x y ops mask, ?_, ?_⟩
  · simp [carve, process_mask, explosion_overlay, Bool.and_eq_true]
  · simp only [carve, process_mask, Bool.and_assoc, Bool.and_self]

/-- C7 witness: a concrete carve at centre `(3, 3)` with radius 2 keeps a
pixel far from the disc, removes one inside it, never revives a cleared
pixel, and is idempotent. -/
theorem carve_monotone_idempotent_witness :
    (carve_seq [(3, 3, 2)] (fun _ _ => true) 0 0 = true →
      (fun _ _ : Int => true) 0 0 = true) ∧
    (carve 3 3 2 (fun _ _ => true) 0 0 = true ↔
      (fun _ _ : Int => true) 0 0 = true ∧
        ((0 : ℚ) - 3) ^ 2 + ((0 : ℚ) - 3) ^ 2 > ((2 : Int) : ℚ) ^ 2) ∧
    carve 3 3 2 (carve 3 3 2 (fun _ _ => true)) 0 0 =
      carve 3 3 2 (fun _ _ => true) 0 0 :=
  carve_monotone_idempotent [(3, 3, 2)] (fun _ _ => true) 3 3 2 0 0

/-! ## C8: out-of-bounds terrain queries are collision-free -/

/-- C8: `collision_pixel` returns `false` — with no error — for every
coordinate pair outside `[0, W) × [0, H)`. -/
theorem collision_pixel_out_of_bounds (mask : Mask) (W H : Nat) (x y : ℚ)
    (h : x < 0 ∨ (W : ℚ) ≤ x ∨ y < 0 ∨ (H : ℚ) ≤ y) :
    collision_pixel mask W H x y = false := by
  unfold collision_pixel
  rcases h with h | h | h | h
  · have hx : decide (0 ≤ x) = false := decide_eq_false (not_le.mpr h)
    simp [hx]
  · have hx : decide (x < (W : ℚ)) = false := decide_eq_false (not_lt.mpr h)
    simp [hx]
  · have hy : decide (0 ≤ y) = false := decide_eq_false (not_le.mpr h)
    simp [hy]
  · have hy : decide (y < (H : ℚ)) = false := decide_eq_false (not_lt.mpr h)
    simp [hy]

/-- C8 witness: the all-solid 5 × 5 mask reports no collision at
`(-1, 0)`. -/
theorem collision_pixel_out_of_bounds_witness :
    collision_pixel (fun _ _ => true) 5 5 (-1) 0 = false :=
  collision_pixel_out_of_bounds (fun _ _ => true) 5 5 (-1) 0
    (Or.inl (by norm_num))

/-! ## C2: a live grenade does not block the settle transition -/

/-- C2 counterexample: with a single live grenade at rest as the only world
object, `settled` is already true — `Grenade.is_in_steady_state` is never
consulted — and the `WaitingForSettle` tick transitions straight to
`BetweenTurns`. -/
theorem settled_ignores_live_grenade :
    settled [⟨WOKind.grenade, 0, 0⟩] = true ∧
    has_live_grenade [⟨WOKind.grenade, 0, 0⟩] = true ∧
    grenade_is_in_steady_state = false ∧
    process_tick_world false false [⟨WOKind.grenade, 0, 0⟩]
        ⟨false, false, true, false, false⟩ =
      ⟨false, false, false, true, false⟩ := by
  refine ⟨by decide, by decide, rfl, by decide⟩

/-- C2 amended: in the `WaitingForSettle` phase the tick moves to
`BetweenTurns` exactly when `settled` holds, and `settled` is exactly the
condition that every world object has zero velocity in both axes — the
presence of a live grenade plays no part. -/
theorem waiting_for_settle_transition (time_up multi_alive : Bool)
    (objs : List WorldObject) (gs : GameState)
    (h1 : gs.controlled_can_attack = false)
    (h2 : gs.controlled_can_just_walk = false)
    (h3 : gs.waiting_for_things_to_settle = true) :
    ((process_tick_world time_up multi_alive objs gs).between_turns =
      (settled objs || gs.between_turns)) ∧
    ((process_tick_world time_up multi_alive objs gs).waiting_for_things_to_settle
      = !settled objs) ∧
    (settled objs = true ↔ ∀ wo ∈ objs, wo.vx = 0 ∧ wo.vy = 0) := by
  refine ⟨?_, ?_, ?_⟩
  · cases hs : settled objs <;>
      simp [process_tick_world, process_tick, h1, h2, h3, hs]
  · cases hs : settled objs <;>
      simp [process_tick_world, process_tick, h1, h2, h3, hs]
  · simp [settled, List.all_eq_true]

/-- C2 amended witness: a moving rocket keeps the field unsettled and in
`WaitingForSettle`; the transition equations hold at this concrete input. -/
theorem waiting_for_settle_transition_witness :
    ((process_tick_world false false [⟨WOKind.rocket, 1, 0⟩]
        ⟨false, false, true, false, false⟩).between_turns =
      (settled [⟨WOKind.rocket, 1, 0⟩] || false)) ∧
    ((process_tick_world false false [⟨WOKind.rocket, 1, 0⟩]
        ⟨false, false, true, false, false⟩).waiting_for_things_to_settle =
      !settled [⟨WOKind.rocket, 1, 0⟩]) ∧
    (settled [⟨WOKind.rocket, 1, 0⟩] = true ↔
      ∀ wo ∈ [(⟨WOKind.rocket, 1, 0⟩ : WorldObject)], wo.vx = 0 ∧ wo.vy = 0) :=
  waiting_for_settle_transition false false [⟨WOKind.rocket, 1, 0⟩]
    ⟨false, false, true, false, false⟩ rfl rfl rfl

/-! ## C3: the phase flags of reachable game states -/

/-- C3 counterexample: the freshly constructed `GameState` — which is
reachable by definition — has two phase flags set, `controlled_can_attack`
and `waiting_for_things_to_settle`, so exactly-one-flag fails. -/
theorem gamestate_init_two_flags :
    GameState.init.flag_count = 2 ∧
    GameState.init.controlled_can_attack = true ∧
    GameState.init.waiting_for_things_to_settle = true ∧
    GsReachable GameState.init :=
  ⟨by decide, by decide, by decide, Relation.ReflTransGen.refl⟩

/-- C3 amended: every reachable game state has either exactly one phase
flag set, or exactly two with `waiting_for_things_to_settle` one of them
(and `end_game` never among them) — the double-flag states occurring until
the first settle transition clears the initial
`waiting_for_things_to_settle`. -/
theorem gamestate_flag_invariant (gs : GameState) (h : GsReachable gs) :
    gs.flag_count = 1 ∨
      (gs.flag_count = 2 ∧ gs.waiting_for_things_to_settle = true ∧
        gs.end_game = false) := by
  have hm := gs_reachable_mem h
  fin_cases hm <;> decide

/-- C3 amended witness: the invariant at the initial state, which carries
the two flags. -/
theorem gamestate_flag_invariant_witness :
    GameState.init.flag_count = 1 ∨
      (GameState.init.flag_count = 2 ∧
        GameState.init.waiting_for_things_to_settle = true ∧
        GameState.init.end_game = false) :=
  gamestate_flag_invariant GameState.init Relation.ReflTransGen.refl

/-! ## C5: firing-strength charging -/

lemma charge_steps_none_eq (n : Nat) :
    charge_steps none n =
      if n ≤ 83 then ⟨0.12 * n, true, true⟩ else ⟨0, false, false⟩ := by
  induction n with
  | zero => simp [charge_steps, initial_charge]
  | succ n ih =>
      rw [charge_steps, ih]
      by_cases hn : n ≤ 83
      · rcases Nat.lt_or_ge n 83 with hlt | hge
        · have h1 : n + 1 ≤ 83 := hlt
          have hc : (n : ℚ) ≤ 82 := by
            exact_mod_cast Nat.lt_succ_iff.mp hlt
          have hle : ¬ ((0.12 : ℚ) * n + 0.12 > MAXIMUM_FIRING_POWER) := by
            rw [MAXIMUM_FIRING_POWER]
            push_neg
            nlinarith
          simp only [hn, if_true, prepare_attack, Bool.and_self, if_pos,
            hle, if_false, h1]
          norm_num
          ring
        · have hn83 : n = 83 := le_antisymm hn hge
          subst hn83
          have hgt : (0.12 : ℚ) * 83 + 0.12 > MAXIMUM_FIRING_POWER := by
            rw [MAXIMUM_FIRING_POWER]; norm_num
          simp only [le_refl, if_true, prepare_attack, Bool.and_self,
            if_pos, hgt, release_attack]
          norm_num
          rw [if_pos (show MAXIMUM_FIRING_POWER < 252 / 25 by
            rw [MAXIMUM_FIRING_POWER]; norm_num)]
      · have hn1 : ¬ (n + 1 ≤ 83) := fun h => hn (Nat.le_of_succ_le h)
        simp [hn, hn1, prepare_attack]

lemma charge_steps_target_invariant (t : ℚ) (h0 : 0 ≤ t)
    (h10 : t ≤ MAXIMUM_FIRING_POWER) (n : Nat) :
    0 ≤ (charge_steps (some t) n).firing_strength ∧
      (charge_steps (some t) n).firing_strength ≤ t ∧
      (charge_steps (some t) n).preparing_attack = true ∧
      (charge_steps (some t) n).controlled_can_attack = true := by
  induction n with
  | zero => exact ⟨le_refl 0, h0, rfl, rfl⟩
  | succ n ih =>
      obtain ⟨hs0, hst, hp, hc⟩ := ih
      rw [charge_steps]
      by_cases hgt : (charge_steps (some t) n).firing_strength + 0.12 > t
      · simp only [prepare_attack, hp, hc, Bool.and_self, if_true, hgt]
        exact ⟨h0, le_refl t, trivial, trivial⟩
      · have hle10 :
            ¬ ((charge_steps (some t) n).firing_strength + 0.12 >
              MAXIMUM_FIRING_POWER) := by
          push_neg at hgt ⊢
          exact hgt.trans h10
        simp only [prepare_attack, hp, hc, Bool.and_self, if_true, hgt,
          if_false, hle10]
        push_neg at hgt
        exact ⟨by linarith, hgt, trivial, trivial⟩

lemma fired_on_call_target_none (t : ℚ) (h0 : 0 ≤ t)
    (h10 : t ≤ MAXIMUM_FIRING_POWER) (n : Nat) :
    fired_on_call (some t) n = none := by
  obtain ⟨hs0, hst, hp, hc⟩ := charge_steps_target_invariant t h0 h10 n
  unfold fired_on_call
  by_cases hgt : (charge_steps (some t) n).firing_strength + 0.12 > t
  · simp [prepare_attack, hp, hc, hgt]
  · have hle10 :
        ¬ ((charge_steps (some t) n).firing_strength + 0.12 >
          MAXIMUM_FIRING_POWER) := by
      push_neg at hgt ⊢
      exact hgt.trans h10
    simp [prepare_attack, hp, hc, hgt, hle10]

/-- C5: charging an attack from strength 0 adds 0.12 per call while below
the cap; the strength after any number of calls never exceeds
`MAXIMUM_FIRING_POWER = 10`; exactly one call — the 84th, whose increment
first crosses 10 — triggers `release_attack`, and it fires with strength
exactly 10; and with an AI target strength `t ∈ [0, 10]` supplied, the
strength is capped at `t`, never overshoots it, and no auto-release ever
fires. -/
theorem prepare_attack_clamp :
    (∀ n, n ≤ 83 →
      (charge_steps none n).firing_strength = 0.12 * n) ∧
    (∀ n, (charge_steps none n).firing_strength ≤ MAXIMUM_FIRING_POWER) ∧
    (∀ n, fired_on_call none n =
      if n = 83 then some MAXIMUM_FIRING_POWER else none) ∧
    (∀ t : ℚ, 0 ≤ t → t ≤ MAXIMUM_FIRING_POWER →
      (∀ n, (charge_steps (some t) n).firing_strength ≤ t) ∧
      (∀ n, fired_on_call (some t) n = none)) := by
  refine ⟨?_, ?_, ?_, ?_⟩
  · intro n hn
    rw [charge_steps_none_eq, if_pos hn]
  · intro n
    rw [charge_steps_none_eq, MAXIMUM_FIRING_POWER]
    by_cases hn : n ≤ 83
    · rw [if_pos hn]
      have hc : (n : ℚ) ≤ 83 := by exact_mod_cast hn
      show (0.12 : ℚ) * n ≤ 10
      nlinarith
    · rw [if_neg hn]
      norm_num
  · intro n
    unfold fired_on_call
    rcases Nat.lt_trichotomy n 83 with hlt | heq | hgt
    · have hn : n ≤ 83 := Nat.le_of_lt hlt
      have hc : (n : ℚ) ≤ 82 := by exact_mod_cast Nat.lt_succ_iff.mp hlt
      have hle : ¬ ((0.12 : ℚ) * n + 0.12 > MAXIMUM_FIRING_POWER) := by
        rw [MAXIMUM_FIRING_POWER]
        push_neg
        nlinarith
      rw [charge_steps_none_eq, if_pos hn]
      simp only [prepare_attack, Bool.and_self, if_true, hle, if_false]
      rw [if_neg (Nat.ne_of_lt hlt)]
    · subst heq
      have hgt10 : (0.12 : ℚ) * 83 + 0.12 > MAXIMUM_FIRING_POWER := by
        rw [MAXIMUM_FIRING_POWER]; norm_num
      rw [charge_steps_none_eq, if_pos (le_refl 83)]
      simp only [prepare_attack, Bool.and_self, if_true, hgt10,
        release_attack, if_pos, Nat.cast_ofNat]
    · have hn : ¬ (n ≤ 83) := Nat.not_le_of_lt hgt
      rw [charge_steps_none_eq, if_neg hn]
      simp [prepare_attack, Nat.ne_of_gt hgt]
  · intro t h0 h10
    exact ⟨fun n => (charge_steps_target_invariant t h0 h10 n).2.1,
      fun n => fired_on_call_target_none t h0 h10 n⟩

/-! ## C6: the AI grid scan -/

lemma not_scan_beats_iff {d₁ d₂ : Int} {δ₁ δ₂ : ℚ} :
    ¬ scan_beats d₁ δ₁ d₂ δ₂ ↔ d₁ < d₂ ∨ (d₁ = d₂ ∧ δ₂ ≤ δ₁) := by
  unfold scan_beats
  push_neg
  constructor
  · rintro ⟨h1, h2⟩
    rcases lt_or_eq_of_le h1 with h | h
    · exact Or.inl h
    · exact Or.inr ⟨h, h2 h⟩
  · rintro (h | ⟨he, hd⟩)
    · exact ⟨le_of_lt h, fun he => absurd he (ne_of_lt h)⟩
    · exact ⟨le_of_eq he, fun _ => hd⟩

lemma not_scan_beats_trans {d₁ d₂ d₃ : Int} {δ₁ δ₂ δ₃ : ℚ}
    (h12 : ¬ scan_beats d₁ δ₁ d₂ δ₂) (h23 : ¬ scan_beats d₂ δ₂ d₃ δ₃) :
    ¬ scan_beats d₁ δ₁ d₃ δ₃ := by
  rw [not_scan_beats_iff] at h12 h23 ⊢
  rcases h12 with h12 | ⟨he12, hd12⟩
  · rcases h23 with h23 | ⟨he23, hd23⟩
    · exact Or.inl (h12.trans h23)
    · exact Or.inl (he23 ▸ h12)
  · rcases h23 with h23 | ⟨he23, hd23⟩
    · exact Or.inl (he12 ▸ h23)
    · exact Or.inr ⟨he12.trans he23, hd23.trans hd12⟩

lemma not_scan_beats_refl (d : Int) (δ : ℚ) : ¬ scan_beats d δ d δ := by
  rw [not_scan_beats_iff]
  exact Or.inr ⟨rfl, le_refl δ⟩

lemma scan_foldl_invariant (score : AttackCandidate → Int × ℚ) :
    ∀ (l : List AttackCandidate) (acc : ScanBest),
      (l.foldl (scan_step score) acc = acc ∨
        ∃ c ∈ l, l.foldl (scan_step score) acc =
          ⟨(score c).1, (score c).2, c.facing_l, c.angle, c.strength⟩) ∧
      ¬ scan_beats acc.best_damage acc.best_distance
          (l.foldl (scan_step score) acc).best_damage
          (l.foldl (scan_step score) acc).best_distance ∧
      ∀ c ∈ l, ¬ scan_beats (score c).1 (score c).2
          (l.foldl (scan_step score) acc).best_damage
          (l.foldl (scan_step score) acc).best_distance := by
  intro l
  induction l with
  | nil =>
      intro acc
      exact ⟨Or.inl rfl, not_scan_beats_refl _ _, fun c hc => absurd hc
        (List.not_mem_nil c)⟩
  | cons c rest ih =>
      intro acc
      rw [List.foldl_cons]
      by_cases hb : scan_beats (score c).1 (score c).2 acc.best_damage
          acc.best_distance
      · have hstep : scan_step score acc c =
            ⟨(score c).1, (score c).2, c.facing_l, c.angle, c.strength⟩ := by
          unfold scan_beats at hb
          unfold scan_step
          exact if_pos hb
        rw [hstep]
        obtain ⟨hmem, hacc, hall⟩ :=
          ih ⟨(score c).1, (score c).2, c.facing_l, c.angle, c.strength⟩
        refine ⟨?_, ?_, ?_⟩
        · rcases hmem with h | ⟨d, hd, h⟩
          · exact Or.inr ⟨c, List.mem_cons_self c rest, h⟩
          · exact Or.inr ⟨d, List.mem_cons_of_mem c hd, h⟩
        · have hca : ¬ scan_beats acc.best_damage acc.best_distance
              (score c).1 (score c).2 := by
            rw [not_scan_beats_iff]
            unfold scan_beats at hb
            rcases hb with h | ⟨he, hd⟩
            · exact Or.inl h
            · exact Or.inr ⟨he.symm, le_of_lt hd⟩
          exact not_scan_beats_trans hca hacc
        · intro d hd
          rcases List.mem_cons.mp hd with rfl | hd
          · exact not_scan_beats_trans (not_scan_beats_refl _ _) hacc
          · exact hall d hd
      · have hstep : scan_step score acc c = acc := by
          unfold scan_beats at hb
          unfold scan_step
          exact if_neg hb
        rw [hstep]
        obtain ⟨hmem, hacc, hall⟩ := ih acc
        refine ⟨?_, hacc, ?_⟩
        · rcases hmem with h | ⟨d, hd, h⟩
          · exact Or.inl h
          · exact Or.inr ⟨d, List.mem_cons_of_mem c hd, h⟩
        · intro d hd
          rcases List.mem_cons.mp hd with rfl | hd
          · exact not_scan_beats_trans hb hacc
          · exact hall d hd

set_option maxRecDepth 4000 in
/-- C6 counterexample: the power grid of `Computer.scan_attacks` is
`np.linspace(0, MAXIMUM_FIRING_POWER)` with numpy's default of 50 samples,
so each facing/angle pair contributes 50 candidates and the full grid has
`2 × 10 × 50 = 1000` members, not the `2 × 10 × 10 = 200` the claim
states. -/
theorem scan_candidates_fifty_powers :
    (linspace 0 10 50).length = 50 ∧ scan_candidates.length = 1000 ∧
      (1000 : Nat) ≠ 2 * 10 * 10 := by
  refine ⟨rfl, rfl, by norm_num⟩

set_option maxRecDepth 4000 in
/-- C6 amended: the scan enumerates, for each weapon, exactly the
candidates facing `{left, right}` crossed with the 10 angles
`linspace(-50, 88, 10)` crossed with the **50** powers `linspace(0, 10)`
(numpy's default sample count); the returned plan is either the initial
default (damage 0, distance 100000, the controlled character's facing,
angle 19, strength 5) when nothing beat it, or one of the candidates with
its phantom score; and no candidate strictly beats the returned plan under
the (damage strictly greater, else equal damage and strictly smaller
distance) replacement rule. -/
theorem scan_attacks_best (score : AttackCandidate → Int × ℚ)
    (facing0 : Bool) :
    scan_candidates.length = 2 * 10 * 50 ∧
    (∀ f ang s, (⟨f, ang, s⟩ : AttackCandidate) ∈ scan_candidates ↔
      ang ∈ linspace (-50) 88 10 ∧ s ∈ linspace 0 10 50) ∧
    (scan_attacks score facing0 = scan_init facing0 ∨
      ∃ c ∈ scan_candidates, scan_attacks score facing0 =
        ⟨(score c).1, (score c).2, c.facing_l, c.angle, c.strength⟩) ∧
    ∀ c ∈ scan_candidates,
      ¬ scan_beats (score c).1 (score c).2
        (scan_attacks score facing0).best_damage
        (scan_attacks score facing0).best_distance := by
  obtain ⟨hmem, _, hall⟩ :=
    scan_foldl_invariant score scan_candidates (scan_init facing0)
  refine ⟨rfl, ?_, hmem, hall⟩
  · intro f ang s
    constructor
    · intro h
      simp only [scan_candidates, List.mem_flatMap, List.mem_map] at h
      obtain ⟨f', hf', ang', hang', s', hs', heq⟩ := h
      cases heq
      exact ⟨hang', hs'⟩
    · intro ⟨hang, hs⟩
      simp only [scan_candidates, List.mem_flatMap, List.mem_map]
      refine ⟨f, by cases f <;> simp, ang, hang, ⟨s, hs, rfl⟩⟩

/-! ## C4: terrain bounce resolution -/

lemma bounce_pattern_hp_alive (sur : Surrounding) (ch : CharacterState) :
    (bounce_pattern sur ch).hp = ch.hp ∧
      (bounce_pattern sur ch).alive = ch.alive := by
  unfold bounce_pattern
  split_ifs <;> exact ⟨rfl, rfl⟩

lemma bounce_pattern_null (sur : Surrounding) (ch : CharacterState)
    (hx : ch.vx = 0) (hy : ch.vy = 0) :
    (bounce_pattern sur ch).vx = 0 ∧ (bounce_pattern sur ch).vy = 0 := by
  unfold bounce_pattern
  split_ifs <;> simp [hx, hy]

lemma bounce_damage_hp (ch : CharacterState) :
    (bounce_damage ch).hp =
      ch.hp - (⌊4 * Real.sqrt (ch.vx ^ 2 + ch.vy ^ 2)⌋ : ℝ) := by
  unfold bounce_damage
  split_ifs <;> rfl

/-- C4: for every terrain classification, a collision at entry speed below
5 zeroes the velocity and leaves hp and the alive flag unchanged; at entry
speed ≥ 5 the hp decreases by `⌊4 × entry_speed⌋`, and whenever the
decreased hp is ≤ 0 the character's alive flag becomes false and the
velocity after the whole bounce routine — whose pattern branch still runs,
on the nulled velocity — is exactly `(0, 0)`.  In particular a character
with hp 20 hit at impact speed 10 ends at hp −20, dead, with zero
velocity. -/
theorem bounce_spec (sur : Surrounding) (ch : CharacterState) :
    (Real.sqrt (ch.vx ^ 2 + ch.vy ^ 2) < 5 →
      bounce sur ch = { ch with vx := 0, vy := 0 }) ∧
    (5 ≤ Real.sqrt (ch.vx ^ 2 + ch.vy ^ 2) →
      (bounce sur ch).hp =
        ch.hp - (⌊4 * Real.sqrt (ch.vx ^ 2 + ch.vy ^ 2)⌋ : ℝ) ∧
      (ch.hp - (⌊4 * Real.sqrt (ch.vx ^ 2 + ch.vy ^ 2)⌋ : ℝ) ≤ 0 →
        (bounce sur ch).alive = false ∧ (bounce sur ch).vx = 0 ∧
          (bounce sur ch).vy = 0)) ∧
    ((bounce ⟨false, false, false⟩ ⟨0, 0, 10, 0, 20, true⟩).hp = 20 - 40 ∧
      (bounce ⟨false, false, false⟩ ⟨0, 0, 10, 0, 20, true⟩).alive = false ∧
      (bounce ⟨false, false, false⟩ ⟨0, 0, 10, 0, 20, true⟩).vx = 0 ∧
      (bounce ⟨false, false, false⟩ ⟨0, 0, 10, 0, 20, true⟩).vy = 0) := by
  refine ⟨?_, ?_, ?_⟩
  · intro h
    unfold bounce
    rw [if_pos h]
  · intro h
    constructor
    · unfold bounce
      rw [if_neg (not_lt.mpr h)]
      rw [(bounce_pattern_hp_alive sur (bounce_damage ch)).1, bounce_damage_hp]
    · intro hle
      have hfatal : bounce_damage ch =
          { px := ch.px, py := ch.py, vx := 0, vy := 0,
            hp := ch.hp - (⌊4 * Real.sqrt (ch.vx ^ 2 + ch.vy ^ 2)⌋ : ℝ),
            alive := false } := by
        unfold bounce_damage
        rw [if_pos hle]
      unfold bounce
      rw [if_neg (not_lt.mpr h), hfatal]
      exact ⟨(bounce_pattern_hp_alive sur _).2, bounce_pattern_null sur _ rfl rfl⟩
  · have hs : Real.sqrt ((10 : ℝ) ^ 2 + (0 : ℝ) ^ 2) = 10 := by
      rw [show ((10 : ℝ) ^ 2 + (0 : ℝ) ^ 2) = 10 ^ 2 by norm_num]
      exact Real.sqrt_sq (by norm_num)
    have hn5 : ¬ (Real.sqrt ((10 : ℝ) ^ 2 + (0 : ℝ) ^ 2) < 5) := by
      rw [hs]; norm_num
    have hle : (20 : ℝ) -
        (⌊(4 : ℝ) * Real.sqrt ((10 : ℝ) ^ 2 + (0 : ℝ) ^ 2)⌋ : ℝ) ≤ 0 := by
      rw [hs]
      norm_num
    unfold bounce bounce_damage bounce_pattern
    dsimp only
    rw [if_neg hn5, if_pos hle]
    norm_num [hs]
    rw [show (100 : ℝ) = 10 ^ 2 by norm_num,
      Real.sqrt_sq (by norm_num : (0 : ℝ) ≤ 10)]
    norm_num

/-! ## C1: explosion damage and knockback -/

/-- C1 counterexample: a character at distance exactly 1/2 from a
radius-60 blast.  The live path (`PlayingField.explosion`) subtracts the
untruncated `radius - distance = 59.5`, leaving hp `40.5`; the helper path
(`character_caught_by_explosion`) subtracts `radius - int(distance) = 60`,
leaving hp `40`; the claim's truncated damage `int(59.5) = 59` would leave
hp `41`.  Neither code path matches the claim. -/
theorem explosion_damage_not_truncated :
    (explosion_character 0 0 60 ⟨1/2, 0, 0, 0, 100, true⟩).hp = 81 / 2 ∧
    (check_character_caught_by_explosion 0 0 60
        ⟨1/2, 0, 0, 0, 100, true⟩).hp = 40 ∧
    (⌊(60 : ℝ) - 1 / 2⌋ : ℤ) = 59 ∧
    (81 / 2 : ℝ) ≠ 100 - 59 ∧ (40 : ℝ) ≠ 100 - 59 := by
  have hsq : ((1 : ℝ) / 2 - 0) ^ 2 + ((0 : ℝ) - 0) ^ 2 = (1 / 2 : ℝ) ^ 2 := by
    norm_num
  have hs : Real.sqrt (((1 : ℝ) / 2 - 0) ^ 2 + ((0 : ℝ) - 0) ^ 2) = 1 / 2 := by
    rw [hsq]
    exact Real.sqrt_sq (by norm_num)
  have hfl0 : (⌊(1 : ℝ) / 2⌋ : ℤ) = 0 := by
    rw [Int.floor_eq_iff]
    norm_num
  refine ⟨?_, ?_, ?_, by norm_num, by norm_num⟩
  · unfold explosion_character
    dsimp only
    rw [hs]
    rw [if_pos rfl, if_pos (by norm_num : (1 : ℝ) / 2 < 60),
      if_neg (by norm_num : ¬ ((100 : ℝ) - (60 - 1 / 2) ≤ 0))]
    norm_num
  · unfold check_character_caught_by_explosion character_caught_by_explosion
    dsimp only
    rw [hs]
    rw [if_pos (by norm_num : (1 : ℝ) / 2 < ((60 : Int) : ℝ)), hfl0]
    rw [if_neg (by norm_num : ¬ ((100 : ℝ) - (((60 : Int) : ℝ) -
        ((0 : ℤ) : ℝ)) ≤ 0))]
    norm_num
  · rw [Int.floor_eq_iff]
    norm_num

/-- C1 amended: for every explosion (the live `PlayingField.explosion`
path), a dead character or one at distance ≥ radius is completely
unaffected; an alive character at distance < radius has its hp decreased
by the exact, untruncated amount `radius - distance` (hp may become
fractional); if the decreased hp is ≤ 0 the character dies and its
velocity is set to `(0, 0)`; otherwise
`0.1 * (radius - distance) * normalize((pos - centre) + (0, -25))` is
added to its velocity.  In particular a character at hp 100 hit at
distance 10 by a radius-60 blast ends at hp 50. -/
theorem explosion_character_spec (cx cy radius : ℝ) (ch : CharacterState) :
    (ch.alive = false → explosion_character cx cy radius ch = ch) ∧
    (radius ≤ Real.sqrt ((ch.px - cx) ^ 2 + (ch.py - cy) ^ 2) →
      explosion_character cx cy radius ch = ch) ∧
    (ch.alive = true →
      Real.sqrt ((ch.px - cx) ^ 2 + (ch.py - cy) ^ 2) < radius →
      (explosion_character cx cy radius ch).hp =
        ch.hp - (radius - Real.sqrt ((ch.px - cx) ^ 2 + (ch.py - cy) ^ 2)) ∧
      (ch.hp - (radius - Real.sqrt ((ch.px - cx) ^ 2 + (ch.py - cy) ^ 2)) ≤ 0 →
        (explosion_character cx cy radius ch).alive = false ∧
        (explosion_character cx cy radius ch).vx = 0 ∧
        (explosion_character cx cy radius ch).vy = 0) ∧
      (0 < ch.hp -
          (radius - Real.sqrt ((ch.px - cx) ^ 2 + (ch.py - cy) ^ 2)) →
        (explosion_character cx cy radius ch).alive = true ∧
        (explosion_character cx cy radius ch).vx =
          ch.vx + (ch.px - cx) / blast_divisor cx cy ch *
            (radius - Real.sqrt ((ch.px - cx) ^ 2 + (ch.py - cy) ^ 2)) * 0.1 ∧
        (explosion_character cx cy radius ch).vy =
          ch.vy + (ch.py - cy - 25) / blast_divisor cx cy ch *
            (radius - Real.sqrt ((ch.px - cx) ^ 2 + (ch.py - cy) ^ 2)) * 0.1)) ∧
    (explosion_character 0 0 60 ⟨6, 8, 0, 0, 100, true⟩).hp = 50 := by
  refine ⟨?_, ?_, ?_, ?_⟩
  · intro h
    unfold explosion_character
    rw [if_neg (by rw [h]; exact Bool.false_ne_true)]
  · intro h
    by_cases halive : ch.alive = true
    · unfold explosion_character
      rw [if_pos halive]
      dsimp only
      rw [if_neg (not_lt.mpr h)]
    · unfold explosion_character
      rw [if_neg halive]
  · intro ha hd
    unfold explosion_character
    rw [if_pos ha]
    dsimp only
    rw [if_pos hd]
    refine ⟨?_, ?_, ?_⟩
    · by_cases hle : ch.hp -
          (radius - Real.sqrt ((ch.px - cx) ^ 2 + (ch.py - cy) ^ 2)) ≤ 0
      · rw [if_pos hle]
      · rw [if_neg hle]
    · intro hle
      rw [if_pos hle]
      exact ⟨rfl, rfl, rfl⟩
    · intro hgt
      rw [if_neg (not_le.mpr hgt)]
      exact ⟨ha, rfl, rfl⟩
  · have hs : Real.sqrt (((6 : ℝ) - 0) ^ 2 + ((8 : ℝ) - 0) ^ 2) = 10 := by
      rw [show ((6 : ℝ) - 0) ^ 2 + ((8 : ℝ) - 0) ^ 2 = 10 ^ 2 by norm_num]
      exact Real.sqrt_sq (by norm_num)
    unfold explosion_character
    dsimp only
    rw [hs]
    rw [if_pos rfl, if_pos (by norm_num : (10 : ℝ) < 60),
      if_neg (by norm_num : ¬ ((100 : ℝ) - (60 - 10) ≤ 0))]
    norm_num

/-! ## C9: the knockback divisor at 25 pixels below the centre -/

/-- C9: evaluation of the code at the failing input.  A character exactly
25 pixels directly below the blast centre — centre `(0, 0)`, character at
`(0, 25)`, radius 60, hp 100 — is alive, inside the blast (distance
`25 < 60`) and survives the damage (`100 - (60 - 25) = 65 > 0`), yet the
divisor `np.linalg.norm(blast_vector)` of the knockback normalisation is
exactly 0: the source divides the zero vector by zero there (numpy
produces NaN velocity components), contradicting the claim that the
divisor is always nonzero. -/
theorem blast_divisor_zero_below_centre :
    blast_divisor 0 0 ⟨0, 25, 0, 0, 100, true⟩ = 0 ∧
    Real.sqrt (((0 : ℝ) - 0) ^ 2 + ((25 : ℝ) - 0) ^ 2) = 25 ∧
    (25 : ℝ) < 60 ∧ (0 : ℝ) < 100 - (60 - 25) := by
  refine ⟨?_, ?_, by norm_num, by norm_num⟩
  · show Real.sqrt (((0 : ℝ) - 0) ^ 2 + ((25 : ℝ) - 0 - 25) ^ 2) = 0
    rw [show ((0 : ℝ) - 0) ^ 2 + ((25 : ℝ) - 0 - 25) ^ 2 = 0 by norm_num]
    exact Real.sqrt_zero
  · rw [show ((0 : ℝ) - 0) ^ 2 + ((25 : ℝ) - 0) ^ 2 = 25 ^ 2 by norm_num]
    exact Real.sqrt_sq (by norm_num)

/-! ## C10: the character queue and team rotation -/

lemma next_character_all_dead (roster : List Bool)
    (hdead : ∀ k, k < roster.length → roster.getD k false = false) :
    ∀ fuel i, next_character roster i fuel = none := by
  intro fuel
  induction fuel with
  | zero => intro i; rfl
  | succ fuel ih =>
      intro i
      unfold next_character
      by_cases h : i < roster.length
      · rw [if_pos h,
          if_neg (by rw [hdead i h]; exact Bool.false_ne_true)]
        exact ih (i + 1)
      · rw [if_neg h]
        exact ih 0

lemma next_character_finds (roster : List Bool) :
    ∀ fuel i j, i ≤ j → j < roster.length → roster.getD j false = true →
      (∀ k, i ≤ k → k < j → roster.getD k false = false) →
      j - i < fuel → next_character roster i fuel = some j := by
  intro fuel
  induction fuel with
  | zero => intro i j _ _ _ _ h; omega
  | succ fuel ih =>
      intro i j hij hj ha hmin hfuel
      unfold next_character
      rw [if_pos (lt_of_le_of_lt hij hj)]
      by_cases hieq : i = j
      · subst hieq
        rw [if_pos ha]
      · have hilt : i < j := lt_of_le_of_ne hij hieq
        rw [if_neg (by rw [hmin i (le_refl i) hilt]; exact Bool.false_ne_true)]
        exact ih (i + 1) j hilt hj ha
          (fun k hk1 hk2 => hmin k (Nat.le_of_succ_le hk1) hk2) (by omega)

lemma next_character_wrap (roster : List Bool) :
    ∀ fuel i, i ≤ roster.length →
      (∀ k, i ≤ k → k < roster.length → roster.getD k false = false) →
      roster.length - i < fuel →
      next_character roster i fuel =
        next_character roster 0 (fuel - (roster.length - i) - 1) := by
  intro fuel
  induction fuel with
  | zero => intro i _ _ h; omega
  | succ fuel ih =>
      intro i hi hdead hfuel
      rw [show next_character roster i (fuel + 1) =
        (if i < roster.length then
          (if roster.getD i false then some i
           else next_character roster (i + 1) fuel)
         else next_character roster 0 fuel) from rfl]
      by_cases h : i < roster.length
      · rw [if_pos h,
          if_neg (by rw [hdead i (le_refl i) h]; exact Bool.false_ne_true)]
        have harith : fuel - (roster.length - (i + 1)) - 1 =
            fuel + 1 - (roster.length - i) - 1 := by omega
        rw [ih (i + 1) h
          (fun k hk1 hk2 => hdead k (Nat.le_of_succ_le hk1) hk2) (by omega),
          harith]
      · have harith : fuel = fuel + 1 - (roster.length - i) - 1 := by omega
        rw [if_neg h, ← harith]

lemma drop_range_aux (m : Nat) :
    ∀ s n, (List.range' s n).drop m = List.range' (s + m) (n - m) := by
  induction m with
  | zero => intro s n; simp
  | succ m ih =>
      intro s n
      cases n with
      | zero => simp
      | succ n =>
          rw [List.range'_succ, List.drop_succ_cons, ih (s + 1) n]
          congr 1 <;> omega

lemma drop_range_eq (m n : Nat) :
    (List.range n).drop m = List.range' m (n - m) := by
  rw [List.range_eq_range']
  simpa using drop_range_aux m 0 n

lemma find?_range'_eq_some (p : Nat → Bool) :
    ∀ n s j, s ≤ j → j < s + n → p j = true →
      (∀ k, s ≤ k → k < j → p k = false) →
      (List.range' s n).find? p = some j := by
  intro n
  induction n with
  | zero => intro s j h1 h2 _ _; omega
  | succ n ih =>
      intro s j h1 h2 hp hmin
      rw [List.range'_succ]
      by_cases hs : s = j
      · subst hs
        exact List.find?_cons_of_pos _ hp
      · have hlt : s < j := lt_of_le_of_ne h1 hs
        rw [List.find?_cons_of_neg _ (by rw [hmin s (le_refl s) hlt]; exact Bool.false_ne_true)]
        exact ih (s + 1) j hlt (by omega) hp
          (fun k hk1 hk2 => hmin k (Nat.le_of_succ_le hk1) hk2)

lemma find?_range'_eq_none (p : Nat → Bool) (s n : Nat)
    (h : ∀ k, s ≤ k → k < s + n → p k = false) :
    (List.range' s n).find? p = none := by
  rw [List.find?_eq_none]
  intro x hx
  rw [List.mem_range'_1] at hx
  rw [h x hx.1 hx.2]
  exact Bool.false_ne_true

lemma next_character_eq_first_alive (roster : List Bool) (start : Nat)
    (hs : start ≤ roster.length) :
    next_character roster start (roster.length + start + 1) =
      first_alive_from roster start := by
  classical
  have hrot : (List.range roster.length).rotate start =
      (List.range roster.length).drop start ++
        (List.range roster.length).take start :=
    List.rotate_eq_drop_append_take (by simpa using hs)
  unfold first_alive_from
  rw [hrot, List.find?_append, drop_range_eq, List.take_range,
    min_eq_left hs]
  by_cases hex : ∃ j, start ≤ j ∧ j < roster.length ∧
      roster.getD j false = true
  · obtain ⟨hj0s, hj0lt, hj0a⟩ := Nat.find_spec hex
    have hmin : ∀ k, start ≤ k → k < Nat.find hex →
        roster.getD k false = false := by
      intro k hk1 hk2
      cases hcase : roster.getD k false
      · rfl
      · exact absurd ⟨hk1, lt_trans hk2 hj0lt, hcase⟩ (Nat.find_min hex hk2)
    rw [find?_range'_eq_some (fun j => roster.getD j false)
      (roster.length - start) start (Nat.find hex) hj0s (by omega) hj0a hmin]
    exact next_character_finds roster (roster.length + start + 1) start
      (Nat.find hex) hj0s hj0lt hj0a hmin (by omega)
  · push_neg at hex
    have hdead1 : ∀ k, start ≤ k → k < roster.length →
        roster.getD k false = false := by
      intro k hk1 hk2
      cases hcase : roster.getD k false
      · rfl
      · exact absurd hcase (hex k hk1 hk2)
    rw [find?_range'_eq_none _ start (roster.length - start)
      (fun k hk1 hk2 => hdead1 k hk1 (by omega))]
    rw [next_character_wrap roster (roster.length + start + 1) start hs
      hdead1 (by omega)]
    rw [show roster.length + start + 1 - (roster.length - start) - 1 =
      2 * start by omega]
    by_cases hex2 : ∃ j, j < start ∧ roster.getD j false = true
    · obtain ⟨hj1lt, hj1a⟩ := Nat.find_spec hex2
      have hmin2 : ∀ k, k < Nat.find hex2 →
          roster.getD k false = false := by
        intro k hk
        cases hcase : roster.getD k false
        · rfl
        · exact absurd ⟨lt_trans hk hj1lt, hcase⟩ (Nat.find_min hex2 hk)
      rw [List.range_eq_range']
      rw [find?_range'_eq_some (fun j => roster.getD j false) start 0
        (Nat.find hex2) (Nat.zero_le _) (by omega) hj1a
        (fun k _ hk2 => hmin2 k hk2)]
      exact next_character_finds roster (2 * start) 0 (Nat.find hex2)
        (Nat.zero_le _) (by omega) hj1a (fun k _ hk2 => hmin2 k hk2)
        (by omega)
    · push_neg at hex2
      have hdead0 : ∀ k, k < roster.length →
          roster.getD k false = false := by
        intro k hk
        by_cases hks : k < start
        · cases hcase : roster.getD k false
          · rfl
          · exact absurd hcase (hex2 k hks)
        · exact hdead1 k (not_lt.mp hks) hk
      rw [List.range_eq_range']
      rw [find?_range'_eq_none (fun j => roster.getD j false) 0 start
        (fun k _ hk2 => hdead0 k (by omega))]
      exact next_character_all_dead roster hdead0 (2 * start) 0

lemma two_mem_le_length {α : Type} {l : List α} {a b : α}
    (ha : a ∈ l) (hb : b ∈ l) (hab : a ≠ b) : 2 ≤ l.length := by
  induction l with
  | nil => cases ha
  | cons x xs ih =>
      simp only [List.length_cons]
      rcases List.mem_cons.mp ha with rfl | ha'
      · rcases List.mem_cons.mp hb with rfl | hb'
        · exact absurd rfl hab
        · have := List.length_pos.mpr (List.ne_nil_of_mem hb')
          omega
      · have := List.length_pos.mpr (List.ne_nil_of_mem ha')
        omega

lemma find_team_after_zip (last : Nat) :
    ∀ (l r : List Nat), l.length ≤ r.length → last ∈ l →
      ∃ p, ∃ hp : p < l.length, ∃ hq : p < r.length,
        find_team_after last (l.zip r) = some (r.get ⟨p, hq⟩) ∧
          l.get ⟨p, hp⟩ = last := by
  intro l
  induction l with
  | nil => intro r _ hmem; cases hmem
  | cons a as ih =>
      intro r hlen hmem
      cases r with
      | nil => simp at hlen
      | cons b bs =>
          rw [List.zip_cons_cons]
          by_cases hab : a = last
          · refine ⟨0, by simp, by simp, ?_, hab⟩
            unfold find_team_after
            rw [if_pos hab]
            rfl
          · have hmem' : last ∈ as := by
              rcases List.mem_cons.mp hmem with h | h
              · exact absurd h.symm hab
              · exact h
            obtain ⟨p, hp, hq, hfind, hget⟩ :=
              ih bs (by simpa using hlen) hmem'
            refine ⟨p + 1, by simpa using Nat.succ_lt_succ hp,
              by simpa using Nat.succ_lt_succ hq, ?_, ?_⟩
            · unfold find_team_after
              rw [if_neg hab]
              rw [hfind]
              rfl
            · simpa using hget

lemma next_team_alive (teams : List Bool) (last i₁ i₂ : Nat)
    (hlast : last < teams.length) (h1 : i₁ < teams.length)
    (h2 : i₂ < teams.length) (hne : i₁ ≠ i₂)
    (ha1 : teams.getD i₁ false = true) (ha2 : teams.getD i₂ false = true) :
    ∃ j, next_team teams last = some j ∧ teams.getD j false = true := by
  have hmem_iff : ∀ i, i ∈ live_teams teams last ↔
      i < teams.length ∧ (teams.getD i false = true ∨ i = last) := by
    intro i
    simp [live_teams, List.mem_filter, List.mem_range]
  have hnodup : (live_teams teams last).Nodup :=
    List.Nodup.filter _ (List.nodup_range _)
  have hlast_mem : last ∈ live_teams teams last :=
    (hmem_iff last).mpr ⟨hlast, Or.inr rfl⟩
  have h1mem : i₁ ∈ live_teams teams last :=
    (hmem_iff i₁).mpr ⟨h1, Or.inl ha1⟩
  have h2mem : i₂ ∈ live_teams teams last :=
    (hmem_iff i₂).mpr ⟨h2, Or.inl ha2⟩
  have hlen2 : 2 ≤ (live_teams teams last).length :=
    two_mem_le_length h1mem h2mem hne
  have hrotlen : ((live_teams teams last).rotate 1).length =
      (live_teams teams last).length := List.length_rotate _ _
  obtain ⟨p, hp, hq, hfind, hget⟩ := find_team_after_zip last
    (live_teams teams last) ((live_teams teams last).rotate 1)
    (le_of_eq hrotlen.symm) hlast_mem
  have hjdef : ((live_teams teams last).rotate 1).get ⟨p, hq⟩ =
      (live_teams teams last).get
        ⟨(p + 1) % (live_teams teams last).length, by
          exact Nat.mod_lt _ (by omega)⟩ := by
    exact List.get_rotate _ 1 ⟨p, hq⟩
  set live := live_teams teams last
  set j := live.get ⟨(p + 1) % live.length, Nat.mod_lt _ (by omega)⟩ with hj
  have hjmem : j ∈ live := List.get_mem live _ _
  have hjne : j ≠ last := by
    intro heq
    have hglast : live.get ⟨(p + 1) % live.length,
        Nat.mod_lt _ (by omega)⟩ = live.get ⟨p, hp⟩ := by
      rw [← hj, hget, heq]
    have hfineq := (List.Nodup.get_inj_iff hnodup).mp hglast
    have hvaleq : (p + 1) % live.length = p := congrArg Fin.val hfineq
    rcases Nat.lt_or_ge (p + 1) live.length with hplt | hpge
    · rw [Nat.mod_eq_of_lt hplt] at hvaleq
      omega
    · have hpeq : p + 1 = live.length := by omega
      rw [hpeq, Nat.mod_self] at hvaleq
      omega
  have hjalive : teams.getD j false = true := by
    rcases ((hmem_iff j).mp hjmem).2 with h | h
    · exact h
    · exact absurd h hjne
  refine ⟨j, ?_, hjalive⟩
  unfold next_team
  rw [if_neg (by omega : ¬ (live_teams teams last).length = 1)]
  rw [hfind, hjdef]

/-- C10: advancing the character queue of a team is the first-alive scan of
the roster in cyclic insertion order: with enough fuel the generator equals
`first_alive_from` (rotate the index order to the cursor and take the first
alive entry — insertion order, dead members transparently skipped), and any
character it yields is alive; when the roster has a living member the
advance terminates with a living character; for an all-dead roster the
generator never yields, for any fuel — the infinite loop of the source.
Turn advancement draws from the queue only after `next_team`, which under
the `process_tick` guard of more than one alive team always selects an
alive team, so the queue of a fully dead team is never advanced. -/
theorem team_queue_spec :
    (∀ (roster : List Bool) (start : Nat), start ≤ roster.length →
      next_character roster start (roster.length + start + 1) =
        first_alive_from roster start) ∧
    (∀ (roster : List Bool) (start j : Nat),
      first_alive_from roster start = some j →
      roster.getD j false = true) ∧
    (∀ (roster : List Bool) (start : Nat), start ≤ roster.length →
      (∃ k, k < roster.length ∧ roster.getD k false = true) →
      ∃ j, next_character roster start (roster.length + start + 1) =
        some j ∧ roster.getD j false = true) ∧
    (∀ roster : List Bool,
      (∀ k, k < roster.length → roster.getD k false = false) →
      ∀ start fuel, next_character roster start fuel = none) ∧
    (∀ (teams : List Bool) (last i₁ i₂ : Nat), last < teams.length →
      i₁ < teams.length → i₂ < teams.length → i₁ ≠ i₂ →
      teams.getD i₁ false = true → teams.getD i₂ false = true →
      ∃ j, next_team teams last = some j ∧
        teams.getD j false = true) := by
  refine ⟨next_character_eq_first_alive, ?_, ?_, ?_, ?_⟩
  · intro roster start j h
    unfold first_alive_from at h
    have h2 := List.find?_some h
    simpa using h2
  · rintro roster start hs ⟨k, hk, hka⟩
    have heq := next_character_eq_first_alive roster start hs
    cases hfa : first_alive_from roster start with
    | none =>
        exfalso
        unfold first_alive_from at hfa
        rw [List.find?_eq_none] at hfa
        have hkmem : k ∈ (List.range roster.length).rotate start := by
          rw [List.mem_rotate, List.mem_range]
          exact hk
        exact absurd hka (by simpa using hfa k hkmem)
    | some j =>
        refine ⟨j, by rw [heq, hfa], ?_⟩
        unfold first_alive_from at hfa
        have h2 := List.find?_some hfa
        simpa using h2
  · intro roster hdead start fuel
    exact next_character_all_dead roster hdead fuel start
  · intro teams last i₁ i₂ hlast h1 h2 hne ha1 ha2
    exact next_team_alive teams last i₁ i₂ hlast h1 h2 hne ha1 ha2

end Bombsite
